import Mathlib

/-!
Shallow embedding of the lane-finding core of `P1.ipynb` (classes `Line`,
`Segment`, `Segments` and `LaneRegressor`), together with theorems settling
the specification claims.  Real-valued (Python float) arithmetic is modelled
exactly by the rationals; Python `int()` truncation toward zero is modelled
by `ratTrunc`; the external RANSAC regressor is abstracted as a prediction
function parameter.
-/

/-- Python `sys.maxsize`, the sentinel slope used for vertical segments. -/
def maxsize : ℚ := 9223372036854775807

/-- Truncation toward zero of a rational, as Python `int()` does for a float. -/
def ratTrunc (q : ℚ) : ℤ := q.num.tdiv q.den

/-- A line `y = m * x + b`, from class `Line` (its two list entries `m`, `b`). -/
structure Line where
  m : ℚ
  b : ℚ
deriving DecidableEq

/-- From `Line.__init__`: the line through `(x1, y1)` and `(x2, y2)`; when
`x2 - x1 == 0` the slope is the `maxsize` sentinel. -/
def Line.through (x1 y1 x2 y2 : ℤ) : Line :=
  let dx : ℤ := x2 - x1
  let dy : ℤ := y2 - y1
  let m : ℚ := if dx ≠ 0 then (dy : ℚ) / (dx : ℚ) else maxsize
  { m := m, b := (y2 : ℚ) - (x2 : ℚ) * m }

/-- From `Line.__call__`: `y = m * x + b` truncated to integer precision. -/
def Line.eval (l : Line) (x : ℤ) : ℤ := ratTrunc ((x : ℚ) * l.m + l.b)

/-- From `Line.update`: exponential smoothing of `(m, b)` toward the incoming
line with factor `lam`. -/
def Line.update (l incoming : Line) (lam : ℚ) : Line :=
  { m := lam * l.m + (1 - lam) * incoming.m
    b := lam * l.b + (1 - lam) * incoming.b }

/-- Default value of the smoothing factor argument of `Line.update` (0.98). -/
def defaultLambda : ℚ := 49 / 50

/-- A line segment delimited by `(x1, y1)` and `(x2, y2)`, from class `Segment`. -/
structure Segment where
  x1 : ℤ
  y1 : ℤ
  x2 : ℤ
  y2 : ℤ
deriving DecidableEq

/-- From `Segment.slope`: `(y2 - y1) / (x2 - x1)`, with the `maxsize` sentinel
when `x2 - x1 == 0`. -/
def Segment.slope (s : Segment) : ℚ :=
  let dx : ℤ := s.x2 - s.x1
  let dy : ℤ := s.y2 - s.y1
  if dx ≠ 0 then (dy : ℚ) / (dx : ℚ) else maxsize

/-- Python `range(a, b + 1)`: the integers from `a` to `b` inclusive
(empty when `b < a`). -/
def intRange (a b : ℤ) : List ℤ :=
  (List.range (b + 1 - a).toNat).map (fun i : ℕ => a + (i : ℤ))

/-- From `Segments.dataset`: the double loop appending, for every segment, one
`x` per integer in `range(x1, x2 + 1)` and the matching `y` on the line through
the segment's endpoints.  Returns the pair of columns `(X, y)`. -/
def Segments.dataset (segs : List Segment) : List ℤ × List ℤ :=
  segs.foldl
    (fun acc s =>
      (intRange s.x1 s.x2).foldl
        (fun acc2 x =>
          (acc2.1 ++ [x], acc2.2 ++ [(Line.through s.x1 s.y1 s.x2 s.y2).eval x]))
        acc)
    ([], [])

/-- From `Segments.select`: the elements matching the criterion. -/
def Segments.select (segs : List Segment) (crit : Segment → Bool) : List Segment :=
  segs.filter crit

/-- Slope threshold computed in `LaneRegressor.__call__`: `m = y_n / x_n`
(frame height over frame width). -/
def mThresh (w h : ℕ) : ℚ := (h : ℚ) / (w : ℚ)

/-- Left-side criterion passed to `update` in `LaneRegressor.__call__`:
`s.slope < -m`. -/
def leftCrit (mt : ℚ) (s : Segment) : Bool := decide (s.slope < -mt)

/-- Right-side criterion passed to `update` in `LaneRegressor.__call__`:
`m < s.slope < maxsize`. -/
def rightCrit (mt : ℚ) (s : Segment) : Bool :=
  decide (mt < s.slope ∧ s.slope < maxsize)

/-- Left-candidate subset of a frame's segments. -/
def classifyLeft (segs : List Segment) (w h : ℕ) : List Segment :=
  Segments.select segs (leftCrit (mThresh w h))

/-- Right-candidate subset of a frame's segments. -/
def classifyRight (segs : List Segment) (w h : ℕ) : List Segment :=
  Segments.select segs (rightCrit (mThresh w h))

/-- Segments matching neither criterion (the spec's dropped set). -/
def classifyDropped (segs : List Segment) (w h : ℕ) : List Segment :=
  segs.filter (fun s => !(leftCrit (mThresh w h) s || rightCrit (mThresh w h) s))

/-- Outcome of the fitting stage of `LaneRegressor.update`: `absent` when no
segment matches the criterion (the early return), `err` when the selected set
densifies to an empty dataset (NumPy and sklearn raise on empty arrays),
`fitted` otherwise. -/
inductive FitOutcome
  | absent
  | err
  | fitted (l : Line)
deriving DecidableEq

/-- Fitting stage of `LaneRegressor.update`: select, densify, fit, and reduce
the fitted model to a `Line` through its predictions at the extreme x values.
The RANSAC regressor is abstracted as `predict`, mapping the dataset columns
and an x value to the regressor's (real-valued) prediction there. -/
def fitStep (segs : List Segment) (crit : Segment → Bool)
    (predict : List ℤ → List ℤ → ℤ → ℚ) : FitOutcome :=
  let selected := Segments.select segs crit
  if selected.isEmpty then .absent
  else
    let d := Segments.dataset selected
    match d.1.min?, d.1.max? with
    | some xlo, some xhi =>
      .fitted (Line.through xlo (ratTrunc (predict d.1 d.2 xlo))
        xhi (ratTrunc (predict d.1 d.2 xhi)))
    | _, _ => .err

/-- Keys of the `LaneRegressor.lines` dictionary. -/
inductive LaneKey
  | l
  | r
deriving DecidableEq

/-- Tail of `LaneRegressor.update` given the fitted line (`none` models the
early return on an absent fit): store verbatim when the key is unset, otherwise
smooth the stored line in place with the default factor. -/
def laneUpdate (lines : LaneKey → Option Line) (key : LaneKey)
    (fit : Option Line) : LaneKey → Option Line :=
  match fit with
  | none => lines
  | some updating =>
    match lines key with
    | none => fun k => if k = key then some updating else lines k
    | some cur =>
      fun k => if k = key then some (cur.update updating defaultLambda) else lines k

/-- Whole of `LaneRegressor.update` for one key: select and fit, then update
the mapping; an `err` outcome propagates as an exception out of the frame
loop, modelled as `Except.error`. -/
def LaneRegressor.update (lines : LaneKey → Option Line) (key : LaneKey)
    (segs : List Segment) (crit : Segment → Bool)
    (predict : List ℤ → List ℤ → ℤ → ℚ) :
    Except Unit (LaneKey → Option Line) :=
  match fitStep segs crit predict with
  | .absent => .ok lines
  | .err => .error ()
  | .fitted line => .ok (laneUpdate lines key (some line))

/-! ### Helper lemmas -/

theorem ratTrunc_intCast (n : ℤ) : ratTrunc (n : ℚ) = n := by
  simp [ratTrunc]

theorem foldl_push_pair (g : ℤ → ℤ) (xs : List ℤ) (acc : List ℤ × List ℤ) :
    xs.foldl (fun a x => (a.1 ++ [x], a.2 ++ [g x])) acc =
      (acc.1 ++ xs, acc.2 ++ xs.map g) := by
  induction xs generalizing acc with
  | nil => simp
  | cons x xs ih => simp [ih]

theorem dataset_loop (segs : List Segment) (acc : List ℤ × List ℤ) :
    segs.foldl
      (fun a s =>
        (intRange s.x1 s.x2).foldl
          (fun a2 x =>
            (a2.1 ++ [x], a2.2 ++ [(Line.through s.x1 s.y1 s.x2 s.y2).eval x]))
          a)
      acc =
    (acc.1 ++ (segs.map fun s => intRange s.x1 s.x2).flatten,
     acc.2 ++ (segs.map fun s =>
       (intRange s.x1 s.x2).map fun x =>
         (Line.through s.x1 s.y1 s.x2 s.y2).eval x).flatten) := by
  induction segs generalizing acc with
  | nil => simp
  | cons s rest ih =>
    rw [List.foldl_cons, foldl_push_pair, ih]
    simp

theorem dataset_eq_flatten (segs : List Segment) :
    Segments.dataset segs =
      ((segs.map fun s => intRange s.x1 s.x2).flatten,
       (segs.map fun s =>
         (intRange s.x1 s.x2).map fun x =>
           (Line.through s.x1 s.y1 s.x2 s.y2).eval x).flatten) := by
  simpa [Segments.dataset] using dataset_loop segs ([], [])

theorem mem_intRange (a b x : ℤ) : x ∈ intRange a b ↔ a ≤ x ∧ x ≤ b := by
  simp only [intRange, List.mem_map, List.mem_range]
  constructor
  · rintro ⟨i, hi, rfl⟩
    omega
  · intro h
    exact ⟨(x - a).toNat, by omega, by omega⟩

theorem length_intRange (a b : ℤ) : (intRange a b).length = (b + 1 - a).toNat := by
  simp [intRange]

theorem nodup_intRange (a b : ℤ) : (intRange a b).Nodup := by
  refine List.Nodup.map ?_ (List.nodup_range _)
  intro i j h
  have h2 : a + (i : ℤ) = a + (j : ℤ) := h
  omega

theorem two_le_dedup_length {L : List ℤ} {a b : ℤ}
    (ha : a ∈ L) (hb : b ∈ L) (hab : a ≠ b) : 2 ≤ L.dedup.length := by
  have ha2 : a ∈ L.dedup := List.mem_dedup.mpr ha
  have hb2 : b ∈ L.dedup := List.mem_dedup.mpr hb
  rcases h : L.dedup with _ | ⟨x, _ | ⟨y, t⟩⟩
  · rw [h] at ha2
    simp at ha2
  · rw [h] at ha2 hb2
    simp at ha2 hb2
    exact absurd (ha2.trans hb2.symm) hab
  · simp [h]

/-! ### Claim theorems -/

/-- C5: `Line.update` replaces the parameters `(m, b)` with exactly
`(lam * m + (1 - lam) * m_i, lam * b + (1 - lam) * b_i)` where `(m_i, b_i)`
is the incoming line, and modifies nothing else. -/
theorem C5_smoothing_update_formula (l incoming : Line) (lam : ℚ) :
    l.update incoming lam =
      { m := lam * l.m + (1 - lam) * incoming.m
        b := lam * l.b + (1 - lam) * incoming.b } := rfl

/-- C7: a segment with `x1 == x2` has slope equal to the sentinel maximal
value, a single positive constant, regardless of the values or ordering of
`y1` and `y2`. -/
theorem C7_vertical_slope_sentinel (x y1 y2 : ℤ) :
    (Segment.mk x y1 x y2).slope = maxsize ∧ 0 < maxsize := by
  constructor
  · simp [Segment.slope]
  · norm_num [maxsize]

/-- C3: the per-side estimator is a two-state machine: the first non-absent
fit result is stored verbatim (no smoothing on initialization), each
subsequent non-absent fit is smoothed into the existing estimate with the
default factor, and a side that has an estimate never reverts to none. -/
theorem C3_estimator_two_state (lines : LaneKey → Option Line) (key : LaneKey)
    (f : Line) :
    (lines key = none → laneUpdate lines key (some f) key = some f) ∧
    (∀ cur : Line, lines key = some cur →
      laneUpdate lines key (some f) key = some (cur.update f defaultLambda)) ∧
    (∀ fit : Option Line, lines key ≠ none → laneUpdate lines key fit key ≠ none) := by
  refine ⟨?_, ?_, ?_⟩
  · intro h
    simp [laneUpdate, h]
  · intro cur h
    simp [laneUpdate, h]
  · intro fit h
    cases fit with
    | none => simpa [laneUpdate] using h
    | some g =>
      cases hk : lines key with
      | none => exact absurd hk h
      | some cur => simp [laneUpdate, hk]

/-- Witness for C3 at concrete inputs. -/
theorem C3_estimator_two_state_witness :
    laneUpdate (fun _ => none) LaneKey.l (some (Line.mk 1 2)) LaneKey.l
      = some (Line.mk 1 2) ∧
    laneUpdate (fun _ => some (Line.mk 3 4)) LaneKey.l (some (Line.mk 1 2)) LaneKey.l
      = some ((Line.mk 3 4).update (Line.mk 1 2) defaultLambda) ∧
    laneUpdate (fun _ => some (Line.mk 3 4)) LaneKey.l none LaneKey.l ≠ none :=
  ⟨(C3_estimator_two_state (fun _ => none) LaneKey.l (Line.mk 1 2)).1 rfl,
   (C3_estimator_two_state (fun _ => some (Line.mk 3 4)) LaneKey.l (Line.mk 1 2)).2.1
     (Line.mk 3 4) rfl,
   (C3_estimator_two_state (fun _ => some (Line.mk 3 4)) LaneKey.l (Line.mk 1 2)).2.2
     none (by simp)⟩

/-- C4: an absent fit result leaves the stored per-side mapping exactly
unchanged: the full update returns the mapping untouched whenever the
selection is empty, and any number of absent updates keeps every side's
current line identical. -/
theorem C4_absent_update_unchanged (lines : LaneKey → Option Line) (key : LaneKey)
    (segs : List Segment) (crit : Segment → Bool)
    (predict : List ℤ → List ℤ → ℤ → ℚ) (n : ℕ) :
    (Segments.select segs crit = [] →
      LaneRegressor.update lines key segs crit predict = Except.ok lines) ∧
    (fun ls => laneUpdate ls key none)^[n] lines = lines := by
  constructor
  · intro h
    simp [LaneRegressor.update, fitStep, h]
  · exact Function.iterate_fixed rfl n

/-- Witness for C4 at concrete inputs. -/
theorem C4_absent_update_unchanged_witness :
    LaneRegressor.update (fun _ => some (Line.mk 1 2)) LaneKey.r [] (leftCrit 1)
        (fun _ _ _ => 0) = Except.ok (fun _ => some (Line.mk 1 2)) ∧
    (fun ls => laneUpdate ls LaneKey.r none)^[5] (fun _ => some (Line.mk 1 2))
      = (fun _ => some (Line.mk 1 2)) :=
  ⟨(C4_absent_update_unchanged (fun _ => some (Line.mk 1 2)) LaneKey.r []
      (leftCrit 1) (fun _ _ _ => 0) 5).1 rfl,
   (C4_absent_update_unchanged (fun _ => some (Line.mk 1 2)) LaneKey.r []
      (leftCrit 1) (fun _ _ _ => 0) 5).2⟩

/-- C2: with `m_thresh = frameHeight / frameWidth` and positive frame
dimensions, a segment is in the left set iff its slope is below `-m_thresh`
and in the right set iff its slope is strictly between `m_thresh` and the
sentinel; every input segment lands in exactly one of left, right, dropped,
with left and right disjoint and the three sets covering the input. -/
theorem C2_classification_partition (segs : List Segment) (w h : ℕ)
    (hw : 0 < w) (hh : 0 < h) :
    (∀ s, s ∈ classifyLeft segs w h ↔ s ∈ segs ∧ s.slope < -(mThresh w h)) ∧
    (∀ s, s ∈ classifyRight segs w h ↔
      s ∈ segs ∧ mThresh w h < s.slope ∧ s.slope < maxsize) ∧
    (∀ s, s ∈ segs ↔
      s ∈ classifyLeft segs w h ∨ s ∈ classifyRight segs w h ∨
      s ∈ classifyDropped segs w h) ∧
    (∀ s, s ∈ classifyLeft segs w h → s ∉ classifyRight segs w h) ∧
    (∀ s, s ∈ classifyLeft segs w h → s ∉ classifyDropped segs w h) ∧
    (∀ s, s ∈ classifyRight segs w h → s ∉ classifyDropped segs w h) := by
  have hmt : 0 < mThresh w h := by
    have hw2 : (0 : ℚ) < (w : ℚ) := by exact_mod_cast hw
    have hh2 : (0 : ℚ) < (h : ℚ) := by exact_mod_cast hh
    exact div_pos hh2 hw2
  have hL : ∀ s, s ∈ classifyLeft segs w h ↔ s ∈ segs ∧ s.slope < -(mThresh w h) := by
    intro s
    simp [classifyLeft, Segments.select, List.mem_filter, leftCrit]
  have hR : ∀ s, s ∈ classifyRight segs w h ↔
      s ∈ segs ∧ mThresh w h < s.slope ∧ s.slope < maxsize := by
    intro s
    simp [classifyRight, Segments.select, List.mem_filter, rightCrit]
  have hD : ∀ s, s ∈ classifyDropped segs w h ↔
      s ∈ segs ∧ ¬(s.slope < -(mThresh w h)) ∧
        ¬(mThresh w h < s.slope ∧ s.slope < maxsize) := by
    intro s
    simp only [classifyDropped, List.mem_filter, Bool.not_eq_true', Bool.or_eq_false_iff,
      leftCrit, rightCrit, decide_eq_false_iff_not]
  refine ⟨hL, hR, ?_, ?_, ?_, ?_⟩
  · intro s
    rw [hL, hR, hD]
    by_cases h1 : s.slope < -(mThresh w h) <;>
      by_cases h2 : mThresh w h < s.slope ∧ s.slope < maxsize <;> tauto
  · intro s hsl hsr
    rw [hL] at hsl
    rw [hR] at hsr
    have := hsl.2
    have := hsr.2.1
    linarith
  · intro s hsl hsd
    rw [hL] at hsl
    rw [hD] at hsd
    exact hsd.2.1 hsl.2
  · intro s hsr hsd
    rw [hR] at hsr
    rw [hD] at hsd
    exact hsd.2.2 hsr.2

/-- Witness for C2 at concrete inputs. -/
theorem C2_classification_partition_witness :
    Segment.mk 0 4 2 0 ∈ classifyLeft [Segment.mk 0 4 2 0] 2 1 :=
  ((C2_classification_partition [Segment.mk 0 4 2 0] 2 1 (by norm_num)
      (by norm_num)).1 (Segment.mk 0 4 2 0)).mpr
    ⟨by simp, by norm_num [Segment.slope, mThresh]⟩

/-- C10: a vertical segment (x1 == x2, sentinel-maximal slope) fails both the
left criterion and the right criterion for any frame with positive dimensions,
so it is never placed in either side's set: vertical segments are always
dropped from both sides. -/
theorem C10_vertical_always_dropped (x y1 y2 : ℤ) (w h : ℕ)
    (hw : 0 < w) (hh : 0 < h) :
    leftCrit (mThresh w h) (Segment.mk x y1 x y2) = false ∧
    rightCrit (mThresh w h) (Segment.mk x y1 x y2) = false ∧
    ∀ segs : List Segment,
      Segment.mk x y1 x y2 ∉ classifyLeft segs w h ∧
      Segment.mk x y1 x y2 ∉ classifyRight segs w h := by
  have hs : (Segment.mk x y1 x y2).slope = maxsize := by
    simp [Segment.slope]
  have hmt : 0 < mThresh w h := by
    have hw2 : (0 : ℚ) < (w : ℚ) := by exact_mod_cast hw
    have hh2 : (0 : ℚ) < (h : ℚ) := by exact_mod_cast hh
    exact div_pos hh2 hw2
  have hmax : (0 : ℚ) < maxsize := by norm_num [maxsize]
  have hLf : leftCrit (mThresh w h) (Segment.mk x y1 x y2) = false := by
    simp only [leftCrit, hs, decide_eq_false_iff_not, not_lt]
    linarith
  have hRf : rightCrit (mThresh w h) (Segment.mk x y1 x y2) = false := by
    simp only [rightCrit, hs, decide_eq_false_iff_not, not_and, not_lt]
    intro _
    exact le_refl _
  refine ⟨hLf, hRf, ?_⟩
  intro segs
  constructor
  · intro hmem
    rw [classifyLeft, Segments.select, List.mem_filter] at hmem
    rw [hLf] at hmem
    exact absurd hmem.2 (by simp)
  · intro hmem
    rw [classifyRight, Segments.select, List.mem_filter] at hmem
    rw [hRf] at hmem
    exact absurd hmem.2 (by simp)

/-- Witness for C10 at concrete inputs. -/
theorem C10_vertical_always_dropped_witness :
    leftCrit (mThresh 2 1) (Segment.mk 0 0 0 5) = false ∧
    rightCrit (mThresh 2 1) (Segment.mk 0 0 0 5) = false ∧
    (Segment.mk 0 0 0 5 ∉ classifyLeft [Segment.mk 0 0 0 5] 2 1 ∧
     Segment.mk 0 0 0 5 ∉ classifyRight [Segment.mk 0 0 0 5] 2 1) := by
  have h := C10_vertical_always_dropped 0 0 5 2 1 (by norm_num) (by norm_num)
  exact ⟨h.1, h.2.1, h.2.2 [Segment.mk 0 0 0 5]⟩

theorem smooth_delta (l l0 : Line) (lam : ℚ) (n : ℕ) :
    ((fun t => t.update l0 lam)^[n] l).m - l0.m = lam ^ n * (l.m - l0.m) ∧
    ((fun t => t.update l0 lam)^[n] l).b - l0.b = lam ^ n * (l.b - l0.b) := by
  induction n with
  | zero => simp
  | succ n ih =>
    rw [Function.iterate_succ_apply']
    have h1 := ih.1
    have h2 := ih.2
    constructor
    · have e1 : ((((fun t => t.update l0 lam)^[n] l).update l0 lam).m - l0.m)
          = lam * (((fun t => t.update l0 lam)^[n] l).m - l0.m) := by
        simp [Line.update]
        ring
      rw [e1, h1, ← mul_assoc, ← pow_succ']
    · have e2 : ((((fun t => t.update l0 lam)^[n] l).update l0 lam).b - l0.b)
          = lam * (((fun t => t.update l0 lam)^[n] l).b - l0.b) := by
        simp [Line.update]
        ring
      rw [e2, h2, ← mul_assoc, ← pow_succ']

/-- C6: repeatedly smoothing a line toward a constant incoming line with a
factor in [0, 1] never increases the absolute differences |m - m0| and
|b - b0| from one update to the next, and the differences never flip sign
relative to their initial sign (no overshoot). -/
theorem C6_smoothing_monotone (l l0 : Line) (lam : ℚ)
    (h0 : 0 ≤ lam) (h1 : lam ≤ 1) (n : ℕ) :
    |((fun t => t.update l0 lam)^[n + 1] l).m - l0.m|
        ≤ |((fun t => t.update l0 lam)^[n] l).m - l0.m| ∧
    |((fun t => t.update l0 lam)^[n + 1] l).b - l0.b|
        ≤ |((fun t => t.update l0 lam)^[n] l).b - l0.b| ∧
    0 ≤ (((fun t => t.update l0 lam)^[n] l).m - l0.m) * (l.m - l0.m) ∧
    0 ≤ (((fun t => t.update l0 lam)^[n] l).b - l0.b) * (l.b - l0.b) := by
  have hstepm : ∀ t : Line, (t.update l0 lam).m - l0.m = lam * (t.m - l0.m) := by
    intro t
    simp [Line.update]
    ring
  have hstepb : ∀ t : Line, (t.update l0 lam).b - l0.b = lam * (t.b - l0.b) := by
    intro t
    simp [Line.update]
    ring
  refine ⟨?_, ?_, ?_, ?_⟩
  · rw [Function.iterate_succ_apply', hstepm, abs_mul, abs_of_nonneg h0]
    exact mul_le_of_le_one_left (abs_nonneg _) h1
  · rw [Function.iterate_succ_apply', hstepb, abs_mul, abs_of_nonneg h0]
    exact mul_le_of_le_one_left (abs_nonneg _) h1
  · rw [(smooth_delta l l0 lam n).1, mul_assoc]
    exact mul_nonneg (pow_nonneg h0 n) (mul_self_nonneg _)
  · rw [(smooth_delta l l0 lam n).2, mul_assoc]
    exact mul_nonneg (pow_nonneg h0 n) (mul_self_nonneg _)

/-- Witness for C6 at concrete inputs. -/
theorem C6_smoothing_monotone_witness :
    |((fun t => t.update (Line.mk 0 0) defaultLambda)^[0 + 1] (Line.mk 1 2)).m
        - (Line.mk 0 0).m|
      ≤ |((fun t => t.update (Line.mk 0 0) defaultLambda)^[0] (Line.mk 1 2)).m
        - (Line.mk 0 0).m| ∧
    |((fun t => t.update (Line.mk 0 0) defaultLambda)^[0 + 1] (Line.mk 1 2)).b
        - (Line.mk 0 0).b|
      ≤ |((fun t => t.update (Line.mk 0 0) defaultLambda)^[0] (Line.mk 1 2)).b
        - (Line.mk 0 0).b| ∧
    0 ≤ (((fun t => t.update (Line.mk 0 0) defaultLambda)^[0] (Line.mk 1 2)).m
        - (Line.mk 0 0).m) * ((Line.mk 1 2).m - (Line.mk 0 0).m) ∧
    0 ≤ (((fun t => t.update (Line.mk 0 0) defaultLambda)^[0] (Line.mk 1 2)).b
        - (Line.mk 0 0).b) * ((Line.mk 1 2).b - (Line.mk 0 0).b) :=
  C6_smoothing_monotone (Line.mk 1 2) (Line.mk 0 0) defaultLambda
    (by norm_num [defaultLambda]) (by norm_num [defaultLambda]) 0

/-- C9: densification characterized: the dataset's x column is the
concatenation, per segment, of the inclusive integer range x1..x2, and its y
column pairs each such x with the evaluation of the line through the
segment's endpoints; for a segment with x1 ≤ x2 the range has exactly
x2 - x1 + 1 elements, contains each integer of [x1, x2] exactly once
(membership iff plus no duplicates), so longer segments contribute
proportionally more points. -/
theorem C9_dataset_densify (segs : List Segment) (s : Segment) (hs : s.x1 ≤ s.x2) :
    (Segments.dataset segs).1 = (segs.map fun t => intRange t.x1 t.x2).flatten ∧
    (Segments.dataset segs).2 = (segs.map fun t =>
      (intRange t.x1 t.x2).map fun x =>
        (Line.through t.x1 t.y1 t.x2 t.y2).eval x).flatten ∧
    ((intRange s.x1 s.x2).length : ℤ) = s.x2 - s.x1 + 1 ∧
    (∀ x : ℤ, x ∈ intRange s.x1 s.x2 ↔ s.x1 ≤ x ∧ x ≤ s.x2) ∧
    (intRange s.x1 s.x2).Nodup := by
  refine ⟨congrArg Prod.fst (dataset_eq_flatten segs),
    congrArg Prod.snd (dataset_eq_flatten segs), ?_,
    fun x => mem_intRange _ _ _, nodup_intRange _ _⟩
  rw [length_intRange]
  omega

/-- Witness for C9 at concrete inputs. -/
theorem C9_dataset_densify_witness :
    ((intRange (Segment.mk 0 0 3 6).x1 (Segment.mk 0 0 3 6).x2).length : ℤ)
      = (Segment.mk 0 0 3 6).x2 - (Segment.mk 0 0 3 6).x1 + 1 ∧
    ((2 : ℤ) ∈ intRange (Segment.mk 0 0 3 6).x1 (Segment.mk 0 0 3 6).x2 ↔
      (Segment.mk 0 0 3 6).x1 ≤ 2 ∧ (2 : ℤ) ≤ (Segment.mk 0 0 3 6).x2) :=
  ⟨(C9_dataset_densify [Segment.mk 0 0 3 6] (Segment.mk 0 0 3 6) (by norm_num)).2.2.1,
   (C9_dataset_densify [Segment.mk 0 0 3 6] (Segment.mk 0 0 3 6) (by norm_num)).2.2.2.1 2⟩

/-- C8 counterexample: the distinct points (0, 0) and (0, 5) share their x
value, so the constructed line carries the sentinel slope and its evaluation
at x = 0 returns 5, which differs from y1 = 0 by more than the claimed ±1
tolerance. -/
theorem C8_vertical_counterexample :
    ((0 : ℤ), (0 : ℤ)) ≠ ((0 : ℤ), (5 : ℤ)) ∧
    (Line.through 0 0 0 5).eval 0 = 5 ∧
    1 < |(Line.through 0 0 0 5).eval 0 - 0| := by
  have he : (Line.through 0 0 0 5).eval 0 = 5 := by
    simp [Line.through, Line.eval, ratTrunc]
  refine ⟨by decide, he, ?_⟩
  rw [he]
  norm_num

/-- C8 (amended): for any two points with distinct x values, the constructed
line evaluated at x1 and x2 reproduces y1 and y2 exactly, in particular
within the ±1 integer-truncation tolerance. -/
theorem C8_line_reconstruction (x1 y1 x2 y2 : ℤ) (hx : x1 ≠ x2) :
    (Line.through x1 y1 x2 y2).eval x1 = y1 ∧
    (Line.through x1 y1 x2 y2).eval x2 = y2 ∧
    |(Line.through x1 y1 x2 y2).eval x1 - y1| ≤ 1 ∧
    |(Line.through x1 y1 x2 y2).eval x2 - y2| ≤ 1 := by
  have hdx : (x2 - x1 : ℤ) ≠ 0 := sub_ne_zero.mpr (Ne.symm hx)
  have hq : ((x2 - x1 : ℤ) : ℚ) ≠ 0 := Int.cast_ne_zero.mpr hdx
  have hm : (Line.through x1 y1 x2 y2).m
      = ((y2 - y1 : ℤ) : ℚ) / ((x2 - x1 : ℤ) : ℚ) := by
    simp [Line.through, hdx]
  have hb : (Line.through x1 y1 x2 y2).b
      = (y2 : ℚ) - (x2 : ℚ) * (Line.through x1 y1 x2 y2).m := rfl
  have hmul : (Line.through x1 y1 x2 y2).m * ((x2 : ℚ) - (x1 : ℚ))
      = (y2 : ℚ) - (y1 : ℚ) := by
    rw [hm]
    push_cast
    exact div_mul_cancel₀ _ (by push_cast at hq; exact hq)
  have e2 : (Line.through x1 y1 x2 y2).eval x2 = y2 := by
    unfold Line.eval
    rw [hb]
    have h : (x2 : ℚ) * (Line.through x1 y1 x2 y2).m
        + ((y2 : ℚ) - (x2 : ℚ) * (Line.through x1 y1 x2 y2).m) = ((y2 : ℤ) : ℚ) := by
      ring
    rw [h, ratTrunc_intCast]
  have e1 : (Line.through x1 y1 x2 y2).eval x1 = y1 := by
    unfold Line.eval
    rw [hb]
    have h : (x1 : ℚ) * (Line.through x1 y1 x2 y2).m
        + ((y2 : ℚ) - (x2 : ℚ) * (Line.through x1 y1 x2 y2).m)
        = (y2 : ℚ) - (Line.through x1 y1 x2 y2).m * ((x2 : ℚ) - (x1 : ℚ)) := by
      ring
    rw [h, hmul]
    have h2 : (y2 : ℚ) - ((y2 : ℚ) - (y1 : ℚ)) = ((y1 : ℤ) : ℚ) := by
      ring
    rw [h2, ratTrunc_intCast]
  refine ⟨e1, e2, ?_, ?_⟩
  · rw [e1]
    simp
  · rw [e2]
    simp

/-- Witness for the amended C8 at concrete inputs. -/
theorem C8_line_reconstruction_witness :
    (Line.through 0 0 2 4).eval 0 = 0 ∧
    (Line.through 0 0 2 4).eval 2 = 4 ∧
    |(Line.through 0 0 2 4).eval 0 - 0| ≤ 1 ∧
    |(Line.through 0 0 2 4).eval 2 - 4| ≤ 1 :=
  C8_line_reconstruction 0 0 2 4 (by norm_num)

theorem crit_dx_ne_zero {mt : ℚ} (hmt : 0 < mt) {s : Segment}
    (hcrit : leftCrit mt s = true ∨ rightCrit mt s = true) : s.x2 - s.x1 ≠ 0 := by
  intro hdx
  have hs : s.slope = maxsize := by
    simp [Segment.slope, hdx]
  have hmax : (0 : ℚ) < maxsize := by norm_num [maxsize]
  rcases hcrit with hl | hr
  · rw [leftCrit, decide_eq_true_eq] at hl
    rw [hs] at hl
    linarith
  · rw [rightCrit, decide_eq_true_eq] at hr
    rw [hs] at hr
    exact absurd hr.2 (lt_irrefl _)

/-- C1 counterexample: for the segment (5, 0, 2, 3) (slope -1, selected by the
left criterion at threshold 1/2, but not normalized: x1 > x2) the selected set
is non-empty while its densified point cloud has fewer than two distinct x
values, and the fitting stage does not yield an absent result — it proceeds
past the empty-selection early return into the fit of an empty dataset. -/
theorem C1_degenerate_counterexample :
    Segments.select [Segment.mk 5 0 2 3] (leftCrit (mThresh 2 1)) ≠ [] ∧
    (Segments.dataset
      (Segments.select [Segment.mk 5 0 2 3] (leftCrit (mThresh 2 1)))).1.dedup.length < 2 ∧
    fitStep [Segment.mk 5 0 2 3] (leftCrit (mThresh 2 1)) (fun _ _ _ => 0)
      ≠ FitOutcome.absent := by
  have hsel : Segments.select [Segment.mk 5 0 2 3] (leftCrit (mThresh 2 1))
      = [Segment.mk 5 0 2 3] := by
    norm_num [Segments.select, leftCrit, List.filter, Segment.slope, mThresh]
  have hrange : intRange 5 2 = [] := by decide
  have hds : Segments.dataset [Segment.mk 5 0 2 3] = ([], []) := by
    rw [dataset_eq_flatten]
    simp [hrange]
  refine ⟨?_, ?_, ?_⟩
  · rw [hsel]
    simp
  · rw [hsel, hds]
    simp
  · simp only [fitStep, hsel, hds]
    simp

/-- C1 (amended): the fitting stage yields an absent result exactly when the
selected set is empty; and for either actual side criterion with a positive
threshold, if the input segments are normalized (x1 ≤ x2) then a non-empty
selected set always densifies to a cloud with at least two distinct x values,
so the degenerate fewer-than-two-x case never arises there. -/
theorem C1_fit_absent_iff (segs : List Segment) (crit : Segment → Bool)
    (predict : List ℤ → List ℤ → ℤ → ℚ) (mt : ℚ) (hmt : 0 < mt)
    (hc : crit = leftCrit mt ∨ crit = rightCrit mt)
    (hnorm : ∀ s ∈ segs, s.x1 ≤ s.x2) :
    (fitStep segs crit predict = FitOutcome.absent ↔
      Segments.select segs crit = []) ∧
    (Segments.select segs crit ≠ [] →
      2 ≤ (Segments.dataset (Segments.select segs crit)).1.dedup.length) := by
  constructor
  · by_cases hsel : Segments.select segs crit = []
    · simp [fitStep, hsel]
    · have hne : (Segments.select segs crit).isEmpty = false := by
        simpa [List.isEmpty_iff] using hsel
      rcases hm : (Segments.dataset (Segments.select segs crit)).1.min? with _ | xlo
        <;> rcases hM : (Segments.dataset (Segments.select segs crit)).1.max? with _ | xhi
        <;> simp [fitStep, hne, hm, hM, hsel]
  · intro hne
    obtain ⟨s, hs_mem⟩ := List.exists_mem_of_ne_nil _ hne
    have hs_filter := hs_mem
    rw [Segments.select, List.mem_filter] at hs_filter
    obtain ⟨hs_in, hs_crit⟩ := hs_filter
    have hdx : s.x2 - s.x1 ≠ 0 := by
      refine crit_dx_ne_zero hmt ?_
      rcases hc with rfl | rfl
      · exact Or.inl hs_crit
      · exact Or.inr hs_crit
    have hxle : s.x1 ≤ s.x2 := hnorm s hs_in
    have hxlt : s.x1 < s.x2 := by omega
    have hflat := congrArg Prod.fst (dataset_eq_flatten (Segments.select segs crit))
    have h1 : s.x1 ∈ (Segments.dataset (Segments.select segs crit)).1 := by
      rw [hflat]
      refine List.mem_flatten.mpr ⟨intRange s.x1 s.x2, ?_, ?_⟩
      · exact List.mem_map.mpr ⟨s, hs_mem, rfl⟩
      · exact (mem_intRange _ _ _).mpr ⟨le_refl _, le_of_lt hxlt⟩
    have h2 : s.x2 ∈ (Segments.dataset (Segments.select segs crit)).1 := by
      rw [hflat]
      refine List.mem_flatten.mpr ⟨intRange s.x1 s.x2, ?_, ?_⟩
      · exact List.mem_map.mpr ⟨s, hs_mem, rfl⟩
      · exact (mem_intRange _ _ _).mpr ⟨le_of_lt hxlt, le_refl _⟩
    exact two_le_dedup_length h1 h2 (by omega)

/-- Witness for the amended C1 at concrete inputs. -/
theorem C1_fit_absent_iff_witness :
    2 ≤ (Segments.dataset
        (Segments.select [Segment.mk 0 4 2 0] (leftCrit 1))).1.dedup.length ∧
    (fitStep [Segment.mk 0 4 2 0] (leftCrit 1) (fun _ _ _ => 0) = FitOutcome.absent ↔
      Segments.select [Segment.mk 0 4 2 0] (leftCrit 1) = []) := by
  have h := C1_fit_absent_iff [Segment.mk 0 4 2 0] (leftCrit 1) (fun _ _ _ => 0) 1
    (by norm_num) (Or.inl rfl) (by decide)
  refine ⟨h.2 ?_, h.1⟩
  have hsel : Segments.select [Segment.mk 0 4 2 0] (leftCrit 1)
      = [Segment.mk 0 4 2 0] := by
    norm_num [Segments.select, leftCrit, List.filter, Segment.slope]
  rw [hsel]
  simp
